import Mathlib

/-!
Verification of the concept-lattice relational exporter (`src/python/boiler.py`).

The exporter takes an already-built concept lattice, enumerates its concept
nodes, derives a display name from each node's intent, projects each node's
upper-neighbor (immediate parent) set to integer indices, and writes two CSV
artifacts: a concept table and a concept-relationship table.

Embedding choices:
* A lattice is its enumeration: a `List ConceptNode` in the order `c.lattice`
  yields its concepts.  Object references between concepts are modelled by
  arena indices into that list (`upper_neighbors : List Nat`): Python compares
  the external library's concept objects by object identity (the library does
  not override structural equality on concepts), and arena-index equality is
  exactly object identity in this model.
* `concept_list = [a for a in c.lattice]` is the list of references in
  enumeration order, i.e. `List.range l.length`.
* Python's `list.index(x)` is a left-to-right linear scan raising `ValueError`
  when `x` is absent; it is embedded as `indexScan`, together with
  `indexScanProbes`, the number of list elements the scan examines.
* Exceptions are modelled with `Except PyError`; a run that raises writes no
  file (both `to_csv` calls come after the edge loop in the source).
* `DataFrame.to_csv(..., index=False)` writes a header line followed by one
  line per row, fields minimally quoted (quoted only when they contain the
  delimiter, the quote character or a line break), lines ending in a newline.
-/

set_option autoImplicit false

namespace Boiler

/-- Exception classes that can surface from the export, plus the error names
the specification's taxonomy uses.  `valueError` is what Python's
`list.index` raises on a missing element — the only exception the source can
itself raise.  `danglingReferenceError` and `invalidLatticeError` are the
specification's error classes; no such classes exist anywhere in the source,
they are included only so that claims naming them can be stated and compared
against what the code actually raises. -/
inductive PyError where
  | valueError
  | danglingReferenceError
  | invalidLatticeError
  deriving Repr, DecidableEq

/-- A concept node as the external lattice library presents it to `boiler`:
an attribute set (`intent`), an object set (`extent`, never read by the
exporter), and the references to its immediate parents in the partial order
(`upper_neighbors`).  References are arena indices into the lattice's
enumeration list, modelling Python object identity. -/
structure ConceptNode where
  intent : List String
  extent : List String
  upper_neighbors : List Nat
  deriving Repr, DecidableEq

/-- A lattice, as `boiler` consumes it: the sequence of concept nodes in the
order `[a for a in c.lattice]` enumerates them. -/
abbrev Lattice := List ConceptNode

/-- Embedding of `get_concept_name` from the source:
`nm = "; ".join(list(concept.intent))`. -/
def get_concept_name (concept : ConceptNode) : String :=
  String.intercalate "; " concept.intent

/-- Embedding of Python's `list.index(x)`: scan left to right for the first
element equal to `x` (object identity on concept references), raising
`ValueError` when the scan exhausts the list. -/
def indexScan : List Nat → Nat → Except PyError Nat
  | [], _ => .error .valueError
  | y :: ys, x => if y = x then .ok 0 else (indexScan ys x).map (· + 1)

/-- Number of list elements `indexScan` examines (equality tests it performs)
before returning: the cost of the linear scan behind `list.index`. -/
def indexScanProbes : List Nat → Nat → Nat
  | [], _ => 0
  | y :: ys, x => if y = x then 1 else indexScanProbes ys x + 1

/-- Left-to-right effectful map over a list in the `Except` monad: the
evaluation order of a Python list comprehension whose body may raise. -/
def mapExcept {ε α β : Type} (f : α → Except ε β) : List α → Except ε (List β)
  | [] => .ok []
  | a :: as =>
    match f a with
    | .error e => .error e
    | .ok b =>
      match mapExcept f as with
      | .error e => .error e
      | .ok bs => .ok (b :: bs)

/-- Embedding of the edge loop of `boiler`:

    for idx, con in enumerate(concept_list):
        parent_concept_indexes = [concept_list.index(c) for c in list(con.upper_neighbors)]
        for parent_idx in parent_concept_indexes:
            maps_to_list.append((idx, parent_idx))

`conceptList` is the list of references `concept_list`, `idx` the running
enumeration counter. -/
def edgesFrom (conceptList : List Nat) : Nat → List ConceptNode → Except PyError (List (Nat × Nat))
  | _, [] => .ok []
  | idx, con :: rest =>
    match mapExcept (indexScan conceptList) con.upper_neighbors with
    | .error e => .error e
    | .ok parents =>
      match edgesFrom conceptList (idx + 1) rest with
      | .error e => .error e
      | .ok tail => .ok (parents.map (fun p => (idx, p)) ++ tail)

/-- The `maps_to_list` the edge loop builds for a lattice `l`:
`concept_list` is the enumeration's reference list `List.range l.length`. -/
def maps_to_list (l : Lattice) : Except PyError (List (Nat × Nat)) :=
  edgesFrom (List.range l.length) 0 l

/-- The `concept_names` list of the source: one derived name per node, in
enumeration order. -/
def concept_names (l : Lattice) : List String :=
  l.map get_concept_name

/-- The rows of `concept_df`: `id` is `range(len(concept_names))` zipped with
the derived names. -/
def concept_df (l : Lattice) : List (Nat × String) :=
  (List.range l.length).zip (concept_names l)

/-- The rows of `concept_relationship_df`: each edge `(i, p)` becomes a row
`(id_1 = i, relationship = "Is a", id_2 = p)`; the scalar `"Is a"` is
broadcast over the edge list by the DataFrame constructor. -/
def concept_relationship_df (edges : List (Nat × Nat)) : List (Nat × String × Nat) :=
  edges.map (fun e => (e.1, "Is a", e.2))

/-- Minimal CSV quoting as `to_csv` performs it: a field is emitted verbatim
unless it contains the delimiter, the quote character or a line break, in
which case it is wrapped in quotes with inner quotes doubled. -/
def csvField (s : String) : String :=
  if s.data.any (fun ch => ch == ',' || ch == '\x22' || ch == '\n' || ch == '\r') then
    "\x22" ++ (s.replace "\x22" "\x22\x22") ++ "\x22"
  else s

/-- Byte content `concept_df.to_csv(..., index=False)` writes: header
`id,concept_name`, then one line per row. -/
def conceptCsv (l : Lattice) : String :=
  "id,concept_name\n" ++
    String.join ((concept_df l).map (fun r => Nat.repr r.1 ++ "," ++ csvField r.2 ++ "\n"))

/-- Byte content `concept_relationship_df.to_csv(..., index=False)` writes:
header `id_1,relationship,id_2`, then one line per edge row. -/
def relationshipCsv (edges : List (Nat × Nat)) : String :=
  "id_1,relationship,id_2\n" ++
    String.join ((concept_relationship_df edges).map
      (fun r => Nat.repr r.1 ++ "," ++ csvField r.2.1 ++ "," ++ Nat.repr r.2.2 ++ "\n"))

/-- Embedding of `boiler` past the external lattice construction: from the
enumerated lattice and the caller's `output_path`, either raise the exception
the edge loop raised (writing nothing) or return the two file writes in
order, each a `(destination, bytes)` pair with the destination the direct
string concatenation `output_path + suffix` of the source. -/
def boiler (l : Lattice) (output_path : String) : Except PyError (List (String × String)) :=
  match maps_to_list l with
  | .error e => .error e
  | .ok edges =>
    .ok [(output_path ++ "concept.csv", conceptCsv l),
         (output_path ++ "concept_relationship.csv", relationshipCsv edges)]

/-- Follows the spec's words (§4.1, §4.3), for comparison with the source's
`indexScan`-based resolution: the precomputed identity-keyed node→index map —
a reference resolves in one probe to its own enumeration position, `none`
when the reference is not part of the enumeration of `n` nodes. -/
def spec_nodeToIndexMap (n : Nat) (r : Nat) : Option Nat :=
  if r < n then some r else none

/-- The spec's well-formedness of a lattice: every upper-neighbor reference
is part of the enumeration, no node is its own parent, and a node's
upper-neighbor set has no repeated member. -/
def WellFormed (l : Lattice) : Prop :=
  ∀ i : Fin l.length, (l.get i).upper_neighbors.Nodup ∧
    ∀ r ∈ (l.get i).upper_neighbors, r < l.length ∧ r ≠ i.val

instance (l : Lattice) : Decidable (WellFormed l) := by
  unfold WellFormed; infer_instance

/-- The covering-relation edge list the loop builds when every reference
resolves: node at running index `k + d` contributes one edge `(k + d, r)` per
reference `r` in its upper-neighbor list, in order. -/
def coveringEdges : Nat → List ConceptNode → List (Nat × Nat)
  | _, [] => []
  | idx, con :: rest =>
    con.upper_neighbors.map (fun r => (idx, r)) ++ coveringEdges (idx + 1) rest

/-- The spec's three-concept scenario: top (empty intent, no parents),
middle (intent `a`, parent top), bottom (intent `a`,`b`, parent middle), in
enumeration order top, middle, bottom. -/
def chain3 : Lattice :=
  [⟨[], ["o1", "o2"], []⟩, ⟨["a"], ["o1"], [0]⟩, ⟨["a", "b"], [], [1]⟩]

/-- The spec's scenario lattice with every extent replaced by a different
object set; intents, enumeration order and upper-neighbor sets unchanged. -/
def chain3x : Lattice :=
  [⟨[], [], []⟩, ⟨["a"], ["q1", "q2", "q3"], [0]⟩, ⟨["a", "b"], ["q9"], [1]⟩]

/-- A one-node lattice whose node's upper-neighbor set holds a reference
(`5`) to a node absent from the enumeration. -/
def dangling1 : Lattice :=
  [⟨["a"], ["o1"], [5]⟩]

/-! ### Behaviour of the `list.index` linear scan -/

theorem indexScan_range' (n : Nat) : ∀ (s x : Nat), s ≤ x → x < s + n →
    indexScan (List.range' s n) x = .ok (x - s) := by
  induction n with
  | zero => intro s x h1 h2; omega
  | succ n ih =>
    intro s x h1 h2
    show indexScan (s :: List.range' (s + 1) n) x = _
    by_cases hx : s = x
    · subst hx; simp [indexScan]
    · have hsx : s + 1 ≤ x := by omega
      have := ih (s + 1) x hsx (by omega)
      simp only [indexScan, if_neg hx, this, Except.map]
      congr 1
      omega

theorem indexScanProbes_range' (n : Nat) : ∀ (s x : Nat), s ≤ x → x < s + n →
    indexScanProbes (List.range' s n) x = x - s + 1 := by
  induction n with
  | zero => intro s x h1 h2; omega
  | succ n ih =>
    intro s x h1 h2
    show indexScanProbes (s :: List.range' (s + 1) n) x = _
    by_cases hx : s = x
    · subst hx; simp [indexScanProbes]
    · have hsx : s + 1 ≤ x := by omega
      have := ih (s + 1) x hsx (by omega)
      simp only [indexScanProbes, if_neg hx, this]
      omega

/-- A reference inside the enumeration resolves to itself: the scan over the
reference list `range n` finds the very reference it was given. -/
theorem indexScan_range {n x : Nat} (h : x < n) :
    indexScan (List.range n) x = .ok x := by
  rw [List.range_eq_range']
  simpa using indexScan_range' n 0 x (Nat.zero_le x) (by omega)

/-- The scan examines `x + 1` elements to resolve the reference at
enumeration position `x`. -/
theorem indexScanProbes_range {n x : Nat} (h : x < n) :
    indexScanProbes (List.range n) x = x + 1 := by
  rw [List.range_eq_range']
  simpa using indexScanProbes_range' n 0 x (Nat.zero_le x) (by omega)

theorem indexScan_not_mem {xs : List Nat} {x : Nat} (h : x ∉ xs) :
    indexScan xs x = .error .valueError := by
  induction xs with
  | nil => rfl
  | cons y ys ih =>
    have hne : y ≠ x := fun he => h (he ▸ List.mem_cons_self y ys)
    have hx : x ∉ ys := fun hm => h (List.mem_cons_of_mem y hm)
    simp [indexScan, hne, ih hx, Except.map]

theorem indexScan_mem_ok {xs : List Nat} {x : Nat} (h : x ∈ xs) :
    ∃ i, indexScan xs x = .ok i ∧ i < xs.length := by
  induction xs with
  | nil => cases h
  | cons y ys ih =>
    by_cases hy : y = x
    · exact ⟨0, by simp [indexScan, hy], by simp⟩
    · rcases List.mem_cons.1 h with h | h
      · exact absurd h.symm hy
      · obtain ⟨i, hi, hlt⟩ := ih h
        exact ⟨i + 1, by simp [indexScan, hy, hi, Except.map], by simpa using Nat.succ_lt_succ hlt⟩

theorem indexScan_ok_lt {xs : List Nat} {x i : Nat} (h : indexScan xs x = .ok i) :
    i < xs.length := by
  induction xs generalizing i with
  | nil => cases h
  | cons y ys ih =>
    by_cases hy : y = x
    · simp only [indexScan, if_pos hy, Except.ok.injEq] at h
      simp [← h]
    · simp only [indexScan, if_neg hy] at h
      cases hs : indexScan ys x with
      | error e => rw [hs] at h; cases h
      | ok j =>
        rw [hs] at h
        simp only [Except.map, Except.ok.injEq] at h
        have := ih hs
        simp only [List.length_cons, ← h]
        omega

/-! ### Behaviour of `mapExcept` (the list comprehension) -/

theorem mapExcept_ok_of_forall {ε α β : Type} {f : α → Except ε β} {g : α → β} :
    ∀ {as : List α}, (∀ a ∈ as, f a = .ok (g a)) → mapExcept f as = .ok (as.map g)
  | [], _ => rfl
  | a :: as, h => by
    have ha := h a (List.mem_cons_self a as)
    have hrest := mapExcept_ok_of_forall (fun b hb => h b (List.mem_cons_of_mem a hb))
    simp [mapExcept, ha, hrest]

theorem mapExcept_cons_ok {ε α β : Type} {f : α → Except ε β} {a : α} {as : List α}
    {bs : List β} (h : mapExcept f (a :: as) = .ok bs) :
    ∃ b bs', f a = .ok b ∧ mapExcept f as = .ok bs' ∧ bs = b :: bs' := by
  cases ha : f a with
  | error e => simp [mapExcept, ha] at h
  | ok b =>
    cases has : mapExcept f as with
    | error e => simp [mapExcept, ha, has] at h
    | ok bs' =>
      refine ⟨b, bs', rfl, rfl, ?_⟩
      simp [mapExcept, ha, has] at h
      exact h.symm

theorem mapExcept_ok_mem {ε α β : Type} {f : α → Except ε β} :
    ∀ {as : List α} {bs : List β} {b : β},
      mapExcept f as = .ok bs → b ∈ bs → ∃ a ∈ as, f a = .ok b := by
  intro as
  induction as with
  | nil =>
    intro bs b h hb
    simp only [mapExcept, Except.ok.injEq] at h
    subst h; cases hb
  | cons a as ih =>
    intro bs b h hb
    obtain ⟨b', bs', hb', hbs', rfl⟩ := mapExcept_cons_ok h
    rcases List.mem_cons.1 hb with rfl | hmem
    · exact ⟨a, List.mem_cons_self a as, hb'⟩
    · obtain ⟨a', ha', hfa'⟩ := ih hbs' hmem
      exact ⟨a', List.mem_cons_of_mem a ha', hfa'⟩

theorem mapExcept_indexScan_error {cl : List Nat} :
    ∀ {rs : List Nat}, (∃ r ∈ rs, r ∉ cl) → mapExcept (indexScan cl) rs = .error .valueError := by
  intro rs
  induction rs with
  | nil => rintro ⟨r, hr, _⟩; cases hr
  | cons r rs ih =>
    rintro ⟨r', hr', hout⟩
    by_cases hmem : r ∈ cl
    · obtain ⟨i, hi, _⟩ := indexScan_mem_ok hmem
      have hr'' : r' ∈ rs := by
        rcases List.mem_cons.1 hr' with h | h
        · exact absurd (h ▸ hmem) hout
        · exact h
      simp [mapExcept, hi, ih ⟨r', hr'', hout⟩]
    · simp [mapExcept, indexScan_not_mem hmem]

/-! ### Behaviour of the edge loop -/

theorem edgesFrom_ok_of_valid {n : Nat} :
    ∀ (rest : List ConceptNode) (k : Nat),
      (∀ con ∈ rest, ∀ r ∈ con.upper_neighbors, r < n) →
      edgesFrom (List.range n) k rest = .ok (coveringEdges k rest)
  | [], _, _ => rfl
  | con :: rest, k, h => by
    have hcon : ∀ r ∈ con.upper_neighbors, indexScan (List.range n) r = .ok (id r) :=
      fun r hr => indexScan_range (h con (List.mem_cons_self con rest) r hr)
    have hmap := mapExcept_ok_of_forall hcon
    have hrest := edgesFrom_ok_of_valid rest (k + 1)
      (fun c hc => h c (List.mem_cons_of_mem con hc))
    simp [edgesFrom, hmap, hrest, coveringEdges, List.map_id]

theorem edgesFrom_error_of_dangling {n : Nat} :
    ∀ (rest : List ConceptNode) (k : Nat),
      (∃ con ∈ rest, ∃ r ∈ con.upper_neighbors, n ≤ r) →
      edgesFrom (List.range n) k rest = .error .valueError := by
  intro rest
  induction rest with
  | nil => rintro k ⟨con, hcon, _⟩; cases hcon
  | cons con rest ih =>
    rintro k ⟨con', hcon', r', hr', hnr'⟩
    by_cases hval : ∀ r ∈ con.upper_neighbors, r < n
    · have hmap := mapExcept_ok_of_forall
        (fun r hr => indexScan_range (hval r hr) : ∀ r ∈ con.upper_neighbors, _)
      have hcon'' : con' ∈ rest := by
        rcases List.mem_cons.1 hcon' with h | h
        · exact absurd (hval r' (h ▸ hr')) (by omega)
        · exact h
      simp [edgesFrom, hmap, ih (k + 1) ⟨con', hcon'', r', hr', hnr'⟩]
    · push_neg at hval
      obtain ⟨r, hr, hnr⟩ := hval
      have : r ∉ List.range n := by simpa using hnr
      simp [edgesFrom, mapExcept_indexScan_error ⟨r, hr, this⟩]

theorem edgesFrom_ok_bounds {n : Nat} :
    ∀ {rest : List ConceptNode} {k : Nat} {es : List (Nat × Nat)},
      edgesFrom (List.range n) k rest = .ok es →
      ∀ e ∈ es, k ≤ e.1 ∧ e.1 < k + rest.length ∧ e.2 < n := by
  intro rest
  induction rest with
  | nil =>
    intro k es h e he
    simp only [edgesFrom, Except.ok.injEq] at h
    subst h; cases he
  | cons con rest ih =>
    intro k es h e he
    cases hmap : mapExcept (indexScan (List.range n)) con.upper_neighbors with
    | error err => rw [edgesFrom, hmap] at h; cases h
    | ok parents =>
      cases htail : edgesFrom (List.range n) (k + 1) rest with
      | error err => rw [edgesFrom, hmap, htail] at h; cases h
      | ok tail =>
        rw [edgesFrom, hmap, htail] at h
        simp only [Except.ok.injEq] at h
        subst h
        rcases List.mem_append.1 he with hpar | htl
        · obtain ⟨p, hp, rfl⟩ := List.mem_map.1 hpar
          refine ⟨Nat.le_refl k, by simp, ?_⟩
          obtain ⟨r, _, hsc⟩ := mapExcept_ok_mem hmap hp
          have := indexScan_ok_lt hsc
          simpa using this
        · have := ih htail e htl
          exact ⟨by omega, by simp only [List.length_cons]; omega, this.2.2⟩

/-! ### The covering-edge list -/

theorem coveringEdges_length :
    ∀ (rest : List ConceptNode) (k : Nat),
      (coveringEdges k rest).length = (rest.map (fun c => c.upper_neighbors.length)).sum
  | [], _ => rfl
  | con :: rest, k => by
    simp [coveringEdges, coveringEdges_length rest (k + 1)]

theorem mem_coveringEdges :
    ∀ (rest : List ConceptNode) (k : Nat) (i j : Nat),
      (i, j) ∈ coveringEdges k rest ↔
        ∃ d, ∃ hd : d < rest.length, i = k + d ∧ j ∈ (rest.get ⟨d, hd⟩).upper_neighbors
  | [], k, i, j => by simp [coveringEdges]
  | con :: rest, k, i, j => by
    simp only [coveringEdges, List.mem_append, List.mem_map,
      mem_coveringEdges rest (k + 1) i j]
    constructor
    · rintro (⟨r, hr, he⟩ | ⟨d, hd, rfl, hj⟩)
      · obtain ⟨rfl, rfl⟩ := Prod.mk.injEq .. ▸ And.intro (congrArg Prod.fst he) (congrArg Prod.snd he)
        exact ⟨0, by simp, by omega, by simpa using hr⟩
      · exact ⟨d + 1, by simpa using Nat.succ_lt_succ hd, by omega, by simpa using hj⟩
    · rintro ⟨d, hd, rfl, hj⟩
      cases d with
      | zero => exact Or.inl ⟨j, by simpa using hj, by simp⟩
      | succ d =>
        refine Or.inr ⟨d, by simpa using Nat.lt_of_succ_lt_succ hd, by omega, ?_⟩
        simpa using hj

theorem coveringEdges_fst_ge {rest : List ConceptNode} {k : Nat} {e : Nat × Nat}
    (h : e ∈ coveringEdges k rest) : k ≤ e.1 := by
  obtain ⟨i, j⟩ := e
  obtain ⟨d, hd, rfl, _⟩ := (mem_coveringEdges rest k i j).1 h
  omega

theorem coveringEdges_nodup :
    ∀ (rest : List ConceptNode) (k : Nat),
      (∀ con ∈ rest, con.upper_neighbors.Nodup) → (coveringEdges k rest).Nodup
  | [], _, _ => List.nodup_nil
  | con :: rest, k, h => by
    rw [coveringEdges, List.nodup_append]
    refine ⟨?_, coveringEdges_nodup rest (k + 1)
      (fun c hc => h c (List.mem_cons_of_mem con hc)), ?_⟩
    · exact (h con (List.mem_cons_self con rest)).map
        (fun a b hab => by simpa using congrArg Prod.snd hab)
    · intro e he he'
      have h1 : e.1 = k := by
        obtain ⟨r, _, rfl⟩ := List.mem_map.1 he; rfl
      have h2 := coveringEdges_fst_ge he'
      omega

/-! ### The node table -/

theorem concept_names_length (l : Lattice) : (concept_names l).length = l.length :=
  List.length_map l get_concept_name

theorem concept_df_length (l : Lattice) : (concept_df l).length = l.length := by
  simp [concept_df, concept_names_length]

theorem concept_df_map_fst (l : Lattice) :
    (concept_df l).map Prod.fst = List.range l.length := by
  apply List.map_fst_zip
  simp [concept_names_length]

theorem concept_df_getElem? (l : Lattice) (i : Nat) :
    (concept_df l)[i]? = (l[i]?).map (fun con => (i, get_concept_name con)) := by
  by_cases h : i < l.length
  · rw [concept_df, List.zip]
    rw [List.getElem?_zipWith']
    rw [List.getElem?_range h, concept_names,
      List.getElem?_map, List.getElem?_eq_getElem h]
    simp
  · have h1 : (concept_df l)[i]? = none := by
      apply List.getElem?_eq_none
      rw [concept_df_length]; omega
    have h2 : l[i]? = none := List.getElem?_eq_none (by omega)
    simp [h1, h2]

/-! ### The label join -/

theorem intercalate_go_eq_foldl (s : String) :
    ∀ (as : List String) (acc : String),
      String.intercalate.go acc s as = as.foldl (fun x y => x ++ s ++ y) acc
  | [], _ => rfl
  | a :: as, acc => by
    show String.intercalate.go (acc ++ s ++ a) s as = _
    rw [intercalate_go_eq_foldl s as (acc ++ s ++ a)]
    rfl

theorem intercalate_cons (s a : String) (as : List String) :
    String.intercalate s (a :: as) = as.foldl (fun x y => x ++ s ++ y) a :=
  intercalate_go_eq_foldl s as a

/-! ### Congruence of the pipeline in everything except extents -/

theorem edgesFrom_congr {cl : List Nat} :
    ∀ (l1 l2 : List ConceptNode) (k : Nat),
      l1.length = l2.length →
      (∀ (i : Nat) (h1 : i < l1.length) (h2 : i < l2.length),
        (l1.get ⟨i, h1⟩).upper_neighbors = (l2.get ⟨i, h2⟩).upper_neighbors) →
      edgesFrom cl k l1 = edgesFrom cl k l2
  | [], [], _, _, _ => rfl
  | [], _ :: _, _, hlen, _ => by cases hlen
  | _ :: _, [], _, hlen, _ => by cases hlen
  | a :: l1, b :: l2, k, hlen, hnb => by
    have h0 : a.upper_neighbors = b.upper_neighbors :=
      hnb 0 (by simp) (by simp)
    have htail := @edgesFrom_congr cl l1 l2 (k + 1) (by simpa using hlen)
      (fun i h1 h2 => hnb (i + 1) (by simpa using Nat.succ_lt_succ h1)
        (by simpa using Nat.succ_lt_succ h2))
    simp only [edgesFrom, h0, htail]

theorem concept_names_congr {l1 l2 : Lattice}
    (hlen : l1.length = l2.length)
    (hint : ∀ (i : Nat) (h1 : i < l1.length) (h2 : i < l2.length),
      (l1.get ⟨i, h1⟩).intent = (l2.get ⟨i, h2⟩).intent) :
    concept_names l1 = concept_names l2 := by
  apply List.ext_get (by simp [concept_names, hlen])
  intro i h1 h2
  simp only [concept_names, List.get_eq_getElem, List.getElem_map]
  simp only [concept_names, List.length_map] at h1 h2
  have := hint i h1 h2
  simp only [List.get_eq_getElem] at this
  unfold get_concept_name
  rw [this]

/-! ## Claims -/

/-- C1: for every lattice with `N` concept nodes, the node table has exactly
`N` rows, its `id` column is the contiguous, duplicate-free range
`{0, …, N-1}`, and the row at position `i` is the node at enumeration
position `i` tagged with id `i` — node identity to id is the positional
bijection fixed by the single enumeration pass. -/
theorem concept_table_bijection (l : Lattice) :
    (concept_df l).length = l.length ∧
    (concept_df l).map Prod.fst = List.range l.length ∧
    ((concept_df l).map Prod.fst).Nodup ∧
    ∀ i : Nat, (concept_df l)[i]? = (l[i]?).map (fun con => (i, get_concept_name con)) := by
  refine ⟨concept_df_length l, concept_df_map_fst l, ?_, concept_df_getElem? l⟩
  rw [concept_df_map_fst]
  exact List.nodup_range l.length

/-- C6: every node's `concept_name` is its intent's attribute identifiers
in iteration order joined with the fixed separator `"; "`: the empty intent
yields the empty string (not a missing value), and a non-empty intent
`a :: rest` yields `a` with `"; " ++ attribute` appended for each further
attribute. -/
theorem concept_name_from_intent (l : Lattice) (i : Nat) (h : i < l.length) :
    (concept_df l)[i]? = some (i, get_concept_name (l.get ⟨i, h⟩)) ∧
    get_concept_name (l.get ⟨i, h⟩) = String.intercalate "; " (l.get ⟨i, h⟩).intent ∧
    ((l.get ⟨i, h⟩).intent = [] → get_concept_name (l.get ⟨i, h⟩) = "") ∧
    ∀ (a : String) (rest : List String), (l.get ⟨i, h⟩).intent = a :: rest →
      get_concept_name (l.get ⟨i, h⟩) = rest.foldl (fun x y => x ++ "; " ++ y) a := by
  refine ⟨?_, rfl, ?_, ?_⟩
  · rw [concept_df_getElem? l i, List.getElem?_eq_getElem h]
    simp
  · intro he; unfold get_concept_name; rw [he]; rfl
  · intro a rest he; unfold get_concept_name; rw [he, intercalate_cons]

/-- Witness for C6: at the spec's scenario lattice, the bottom node (position
2, intent `a`,`b`) carries name `a; b` in row 2. -/
theorem concept_name_from_intent_witness :
    2 < chain3.length ∧
      ((concept_df chain3)[2]? = some (2, get_concept_name (chain3.get ⟨2, by decide⟩)) ∧
       get_concept_name (chain3.get ⟨2, by decide⟩) =
         String.intercalate "; " (chain3.get ⟨2, by decide⟩).intent ∧
       ((chain3.get ⟨2, by decide⟩).intent = [] →
         get_concept_name (chain3.get ⟨2, by decide⟩) = "") ∧
       ∀ (a : String) (rest : List String), (chain3.get ⟨2, by decide⟩).intent = a :: rest →
         get_concept_name (chain3.get ⟨2, by decide⟩) =
           rest.foldl (fun x y => x ++ "; " ++ y) a) :=
  ⟨by decide, concept_name_from_intent chain3 2 (by decide)⟩

/-- C7: every edge row of a successful export satisfies referential
integrity: both endpoints are below the number of concepts and appear in
the node table's `id` column. -/
theorem edge_referential_integrity (l : Lattice) (es : List (Nat × Nat))
    (h : maps_to_list l = .ok es) :
    ∀ e ∈ es, e.1 < l.length ∧ e.2 < l.length ∧
      e.1 ∈ (concept_df l).map Prod.fst ∧ e.2 ∈ (concept_df l).map Prod.fst := by
  intro e he
  have hef : edgesFrom (List.range l.length) 0 l = .ok es := h
  obtain ⟨-, hb1, hb2⟩ := edgesFrom_ok_bounds hef e he
  have h1 : e.1 < l.length := by omega
  refine ⟨h1, hb2, ?_, ?_⟩ <;> rw [concept_df_map_fst, List.mem_range]
  · exact h1
  · exact hb2

/-- Witness for C7: the spec scenario's two edges `(1,0)` and `(2,1)` have
both endpoints among the ids `0`, `1`, `2` of the node table. -/
theorem edge_referential_integrity_witness :
    maps_to_list chain3 = .ok [(1, 0), (2, 1)] ∧
      ∀ e ∈ [((1 : Nat), (0 : Nat)), (2, 1)], e.1 < chain3.length ∧ e.2 < chain3.length ∧
        e.1 ∈ (concept_df chain3).map Prod.fst ∧ e.2 ∈ (concept_df chain3).map Prod.fst :=
  ⟨rfl, edge_referential_integrity chain3 [(1, 0), (2, 1)] rfl⟩

/-- C2: for a well-formed lattice the exported edge set reproduces the
covering relation exactly: the edge loop succeeds with the covering-edge
list, whose length is the sum over all nodes of the size of that node's
upper-neighbor set, whose members are precisely the (child-index,
parent-index) pairs of the (node, immediate-parent) pairs, with no
duplicates and no self-loops. -/
theorem edge_table_covering_fidelity (l : Lattice) (hwf : WellFormed l) :
    maps_to_list l = .ok (coveringEdges 0 l) ∧
    (coveringEdges 0 l).length = (l.map (fun c => c.upper_neighbors.length)).sum ∧
    (∀ i j : Nat, (i, j) ∈ coveringEdges 0 l ↔
      ∃ hd : i < l.length, j ∈ (l.get ⟨i, hd⟩).upper_neighbors) ∧
    (coveringEdges 0 l).Nodup ∧
    ∀ e ∈ coveringEdges 0 l, e.1 ≠ e.2 := by
  have hvalid : ∀ con ∈ l, ∀ r ∈ con.upper_neighbors, r < l.length := by
    intro con hcon r hr
    obtain ⟨⟨d, hd⟩, rfl⟩ := List.mem_iff_get.1 hcon
    exact ((hwf ⟨d, hd⟩).2 r hr).1
  have hmem : ∀ i j : Nat, (i, j) ∈ coveringEdges 0 l ↔
      ∃ hd : i < l.length, j ∈ (l.get ⟨i, hd⟩).upper_neighbors := by
    intro i j
    rw [mem_coveringEdges l 0 i j]
    constructor
    · rintro ⟨d, hd, hi, hj⟩
      rw [Nat.zero_add] at hi
      subst hi
      exact ⟨hd, hj⟩
    · rintro ⟨hd, hj⟩
      exact ⟨i, hd, (Nat.zero_add i).symm, hj⟩
  refine ⟨edgesFrom_ok_of_valid l 0 hvalid, coveringEdges_length l 0, hmem, ?_, ?_⟩
  · apply coveringEdges_nodup
    intro con hcon
    obtain ⟨⟨d, hd⟩, rfl⟩ := List.mem_iff_get.1 hcon
    exact (hwf ⟨d, hd⟩).1
  · rintro ⟨i, j⟩ he hij
    obtain ⟨hd, hj⟩ := (hmem i j).1 he
    exact ((hwf ⟨i, hd⟩).2 j hj).2 hij.symm

/-- Witness for C2: the spec's three-node scenario is well-formed and its
edge set is exactly the two covering edges, of total size 0 + 1 + 1. -/
theorem edge_table_covering_fidelity_witness :
    WellFormed chain3 ∧
      (maps_to_list chain3 = .ok (coveringEdges 0 chain3) ∧
       (coveringEdges 0 chain3).length =
         (chain3.map (fun c => c.upper_neighbors.length)).sum ∧
       (∀ i j : Nat, (i, j) ∈ coveringEdges 0 chain3 ↔
         ∃ hd : i < chain3.length, j ∈ (chain3.get ⟨i, hd⟩).upper_neighbors) ∧
       (coveringEdges 0 chain3).Nodup ∧
       ∀ e ∈ coveringEdges 0 chain3, e.1 ≠ e.2) :=
  ⟨by decide, edge_table_covering_fidelity chain3 (by decide)⟩

/-- C3 counterexample: the export does resolve parent references, and at the
spec's scenario lattice it does so by the equality-based linear scan of
`list.index`: resolving the reference at enumeration position 1 examines two
elements of the node list (one more than position 0 takes), not the single
probe an identity-keyed map precomputed during enumeration would make —
the claim's "using a node-to-index map … not by an equality-based linear
scan" is false of the code. -/
theorem resolution_scan_counterexample :
    maps_to_list chain3 = .ok [(1, 0), (2, 1)] ∧
    indexScanProbes (List.range chain3.length) 0 = 1 ∧
    indexScanProbes (List.range chain3.length) 1 = 2 ∧
    indexScanProbes (List.range chain3.length) 1 ≠ 1 :=
  ⟨rfl, rfl, rfl, by decide⟩

/-- C3 as amended: the edge projector resolves each upper-neighbor reference
with `list.index`, an equality-based linear scan of the node list that
examines `r + 1` elements for the reference at enumeration position `r`; but
because Python compares the lattice's concept objects by object identity,
the scan is extensionally the spec's identity map: every in-range reference
resolves to the index of that very node — node contents never enter the
scan, so never to a merely structurally-equal earlier node — and the whole
edge loop yields exactly the covering edges. -/
theorem resolution_identity_via_scan (l : Lattice)
    (hvalid : ∀ con ∈ l, ∀ r ∈ con.upper_neighbors, r < l.length) :
    maps_to_list l = .ok (coveringEdges 0 l) ∧
    ∀ r : Nat, r < l.length →
      indexScan (List.range l.length) r = .ok r ∧
      spec_nodeToIndexMap l.length r = some r ∧
      indexScanProbes (List.range l.length) r = r + 1 := by
  refine ⟨edgesFrom_ok_of_valid l 0 hvalid, fun r hr =>
    ⟨indexScan_range hr, ?_, indexScanProbes_range hr⟩⟩
  simp [spec_nodeToIndexMap, hr]

/-- Witness for the amended C3 at the spec's scenario lattice. -/
theorem resolution_identity_via_scan_witness :
    (∀ con ∈ chain3, ∀ r ∈ con.upper_neighbors, r < chain3.length) ∧
      (maps_to_list chain3 = .ok (coveringEdges 0 chain3) ∧
       ∀ r : Nat, r < chain3.length →
         indexScan (List.range chain3.length) r = .ok r ∧
         spec_nodeToIndexMap chain3.length r = some r ∧
         indexScanProbes (List.range chain3.length) r = r + 1) :=
  ⟨by decide, resolution_identity_via_scan chain3 (by decide)⟩

/-- C4 counterexample: a lattice whose single node references the absent
node `5` makes the export fail, but with Python's `ValueError` raised by
`list.index` — the source defines no `DanglingReferenceError` class at all,
so the claim's named failure mode is false of the code. -/
theorem dangling_error_counterexample :
    boiler dangling1 "out/" = .error PyError.valueError ∧
    PyError.valueError ≠ PyError.danglingReferenceError :=
  ⟨rfl, by decide⟩

/-- C4 as amended: if any node's upper-neighbor set holds a reference absent
from the enumeration, the export fails with the `ValueError` that
`list.index` raises — the failure is surfaced, not silently dropped — and
produces neither output file (both writes come after the edge loop). -/
theorem dangling_reference_fails (l : Lattice) (p : String)
    (h : ∃ con ∈ l, ∃ r ∈ con.upper_neighbors, l.length ≤ r) :
    boiler l p = .error PyError.valueError := by
  have herr := edgesFrom_error_of_dangling l 0 h
  simp [boiler, maps_to_list, herr]

/-- Witness for the amended C4 on the one-node lattice with dangling
reference `5`. -/
theorem dangling_reference_fails_witness :
    (∃ con ∈ dangling1, ∃ r ∈ con.upper_neighbors, dangling1.length ≤ r) ∧
      boiler dangling1 "out/" = .error PyError.valueError :=
  ⟨by decide, dangling_reference_fails dangling1 "out/" (by decide)⟩

/-- C5 counterexample: on a lattice whose enumeration yields no nodes the
export returns successfully — it does not fail with any error, in
particular not with the spec's `InvalidLatticeError` (a class the source
never defines) — writing two header-only files. -/
theorem empty_lattice_counterexample :
    boiler ([] : Lattice) "out/" = .ok
      [("out/concept.csv", "id,concept_name\n"),
       ("out/concept_relationship.csv", "id_1,relationship,id_2\n")] ∧
    boiler ([] : Lattice) "out/" ≠ .error PyError.invalidLatticeError := by
  refine ⟨rfl, fun hcontra => ?_⟩
  rw [show boiler ([] : Lattice) "out/" = .ok
      [("out/concept.csv", "id,concept_name\n"),
       ("out/concept_relationship.csv", "id_1,relationship,id_2\n")] from rfl] at hcontra
  cases hcontra

/-- C5 as amended: when lattice enumeration yields no nodes the operation
succeeds, producing a node table and an edge table with zero rows: two
files holding only their header lines. -/
theorem empty_lattice_succeeds (p : String) :
    boiler ([] : Lattice) p = .ok
      [(p ++ "concept.csv", "id,concept_name\n"),
       (p ++ "concept_relationship.csv", "id_1,relationship,id_2\n")] := rfl

/-- C8: running the export twice on the same lattice — two enumerations that
agree node for node — produces the same node table, the same edge list in
the same emission order, and byte-identical output files. -/
theorem export_two_run_determinism (l1 l2 : Lattice) (p : String)
    (hlen : l1.length = l2.length)
    (hnodes : ∀ (i : Nat) (h1 : i < l1.length) (h2 : i < l2.length),
      l1.get ⟨i, h1⟩ = l2.get ⟨i, h2⟩) :
    concept_df l1 = concept_df l2 ∧ maps_to_list l1 = maps_to_list l2 ∧
      boiler l1 p = boiler l2 p := by
  have heq : l1 = l2 := List.ext_get hlen hnodes
  subst heq
  exact ⟨rfl, rfl, rfl⟩

/-- Witness for C8 at the spec's scenario lattice. -/
theorem export_two_run_determinism_witness :
    chain3.length = chain3.length ∧
    (∀ (i : Nat) (h1 : i < chain3.length) (h2 : i < chain3.length),
      chain3.get ⟨i, h1⟩ = chain3.get ⟨i, h2⟩) ∧
    (concept_df chain3 = concept_df chain3 ∧ maps_to_list chain3 = maps_to_list chain3 ∧
      boiler chain3 "out/" = boiler chain3 "out/") :=
  ⟨rfl, fun _ _ _ => rfl,
    export_two_run_determinism chain3 chain3 "out/" rfl (fun _ _ _ => rfl)⟩

/-- C9: a successful export writes exactly two artifacts, in order the
concept table at `output_path ++ "concept.csv"` and the relationship table
at `output_path ++ "concept_relationship.csv"` (direct string concatenation
with the caller's prefix), and every row of the relationship table carries
the fixed literal `"Is a"` in its `relationship` field. -/
theorem export_artifacts (l : Lattice) (p : String) (files : List (String × String))
    (h : boiler l p = .ok files) :
    ∃ es, maps_to_list l = .ok es ∧
      files = [(p ++ "concept.csv", conceptCsv l),
               (p ++ "concept_relationship.csv", relationshipCsv es)] ∧
      files.map Prod.fst = [p ++ "concept.csv", p ++ "concept_relationship.csv"] ∧
      ∀ row ∈ concept_relationship_df es, row.2.1 = "Is a" := by
  unfold boiler at h
  cases hml : maps_to_list l with
  | error e => rw [hml] at h; cases h
  | ok es =>
    rw [hml] at h
    simp only [Except.ok.injEq] at h
    subst h
    refine ⟨es, rfl, rfl, rfl, ?_⟩
    intro row hrow
    obtain ⟨e, he, rfl⟩ := List.mem_map.1 hrow
    rfl

/-- Witness for C9: the spec scenario's successful export and its two
concrete files. -/
theorem export_artifacts_witness :
    boiler chain3 "out/" = .ok
      [("out/concept.csv", "id,concept_name\n0,\n1,a\n2,a; b\n"),
       ("out/concept_relationship.csv", "id_1,relationship,id_2\n1,Is a,0\n2,Is a,1\n")] ∧
    (∃ es, maps_to_list chain3 = .ok es ∧
      [("out/concept.csv", "id,concept_name\n0,\n1,a\n2,a; b\n"),
       ("out/concept_relationship.csv", "id_1,relationship,id_2\n1,Is a,0\n2,Is a,1\n")] =
        [("out/" ++ "concept.csv", conceptCsv chain3),
         ("out/" ++ "concept_relationship.csv", relationshipCsv es)] ∧
      [("out/concept.csv", "id,concept_name\n0,\n1,a\n2,a; b\n"),
       ("out/concept_relationship.csv", "id_1,relationship,id_2\n1,Is a,0\n2,Is a,1\n")].map
          Prod.fst =
        ["out/" ++ "concept.csv", "out/" ++ "concept_relationship.csv"] ∧
      ∀ row ∈ concept_relationship_df es, row.2.1 = "Is a") :=
  ⟨rfl, export_artifacts chain3 "out/" _ rfl⟩

/-- C10: the export never reads any concept's extent: two lattices that
agree on enumeration order, every node's intent and every node's
upper-neighbor set, but differ arbitrarily in extents, produce the same
node table, the same edge list and identical outputs. -/
theorem extent_noninterference (l1 l2 : Lattice) (p : String)
    (hlen : l1.length = l2.length)
    (hagree : ∀ (i : Nat) (h1 : i < l1.length) (h2 : i < l2.length),
      (l1.get ⟨i, h1⟩).intent = (l2.get ⟨i, h2⟩).intent ∧
      (l1.get ⟨i, h1⟩).upper_neighbors = (l2.get ⟨i, h2⟩).upper_neighbors) :
    concept_df l1 = concept_df l2 ∧ maps_to_list l1 = maps_to_list l2 ∧
      boiler l1 p = boiler l2 p := by
  have hnames : concept_names l1 = concept_names l2 :=
    concept_names_congr hlen (fun i h1 h2 => (hagree i h1 h2).1)
  have hdf : concept_df l1 = concept_df l2 := by
    unfold concept_df
    rw [hlen, hnames]
  have hedges : maps_to_list l1 = maps_to_list l2 := by
    unfold maps_to_list
    rw [hlen]
    exact edgesFrom_congr l1 l2 0 hlen (fun i h1 h2 => (hagree i h1 h2).2)
  have hcsv : conceptCsv l1 = conceptCsv l2 := by
    unfold conceptCsv
    rw [hdf]
  refine ⟨hdf, hedges, ?_⟩
  unfold boiler
  rw [hedges]
  cases maps_to_list l2 with
  | error e => rfl
  | ok es => rw [hcsv]

/-- Witness for C10: the spec's scenario lattice and a copy with every
extent replaced export identically. -/
theorem extent_noninterference_witness :
    chain3.length = chain3x.length ∧
    (∀ (i : Nat) (h1 : i < chain3.length) (h2 : i < chain3x.length),
      (chain3.get ⟨i, h1⟩).intent = (chain3x.get ⟨i, h2⟩).intent ∧
      (chain3.get ⟨i, h1⟩).upper_neighbors = (chain3x.get ⟨i, h2⟩).upper_neighbors) ∧
    (concept_df chain3 = concept_df chain3x ∧
      maps_to_list chain3 = maps_to_list chain3x ∧
      boiler chain3 "out/" = boiler chain3x "out/") :=
  ⟨rfl, by decide, extent_noninterference chain3 chain3x "out/" rfl (by decide)⟩

end Boiler
